import Mathlib

/-!
Shallow embedding of `examples/openthread/ot_power_save/main/esp_ot_power_save.c`
(hex decoder `hex_digit_to_int` / `hex_string_to_binary` and its caller
`create_config_network`), together with proofs of the specification claims.

Modelling conventions:
* C `char` values are ASCII codes, embedded as `Nat`
  (65 = A, 70 = F, 97 = a, 102 = f, 48 = 0, 57 = 9, 122 = z).
* The caller-supplied `uint8_t *buf` is a total function `Nat → Nat`; a store
  `buf[k] = v` is `Function.update buf k (v % 256)` (`uint8_t` store).
* Lengths are `Nat`.  The `uint16_t dataset_str_len` of
  `create_config_network` truncates `strlen` modulo 2^16 and is embedded as
  `dataset.length % 65536`; the decoder's `int num_char` is embedded exactly
  (faithful for every string shorter than 2^31 characters).
* The fixed capacity of the `datasetTlvs.mTlvs` array
  (`OT_OPERATIONAL_DATASET_MAX_LENGTH` bytes) is modelled by the
  `overrunsBuffer` check: an execution in which the decode loop would store
  at or past index `maxDatasetLength` is undefined behaviour in the C and is
  mapped to the `bufferOverrun` outcome, cutting off every later
  observation of that execution.
-/

/-- Embedding of `hex_digit_to_int`: 'A'-'F' ↦ 10..15, 'a'-'f' ↦ 10..15,
'0'-'9' ↦ 0..9, everything else ↦ -1. -/
def hex_digit_to_int (hex : Nat) : Int :=
  if 65 ≤ hex ∧ hex ≤ 70 then 10 + (hex : Int) - 65
  else if 97 ≤ hex ∧ hex ≤ 102 then 10 + (hex : Int) - 97
  else if 48 ≤ hex ∧ hex ≤ 57 then (hex : Int) - 48
  else -1

/-- Embedding of the `for (size_t i = 0; i < num_char; i += 2)` loop body of
`hex_string_to_binary`: consumes the string two characters at a time, writing
`(digit0 << 4) + digit1` to `buf[i / 2]` (here index `j`, incremented once per
pair).  Returns `false` paired with the buffer as written so far when the
`digit0 < 0 || digit1 < 0` check fires (the C `return 0;` inside the loop),
`true` with the fully written buffer otherwise.  The singleton case models the
loop reading the NUL terminator (code 0) as `hex_string[i + 1]`:
`hex_digit_to_int 0 = -1`, so the check fires before any write; that case is
unreachable from `hex_string_to_binary`, which rejects odd lengths first. -/
def hexLoop (s : List Nat) (j : Nat) (buf : Nat → Nat) : Bool × (Nat → Nat) :=
  match s with
  | [] => (true, buf)
  | [_] => (false, buf)
  | c0 :: c1 :: rest =>
    if hex_digit_to_int c0 < 0 ∨ hex_digit_to_int c1 < 0 then (false, buf)
    else hexLoop rest (j + 1)
      (Function.update buf j ((hex_digit_to_int c0 * 16 + hex_digit_to_int c1).toNat % 256))

/-- The three syntactically distinct exit points of `hex_string_to_binary`:
`return 0;` after the `num_char % 2 == true` check, `return 0;` inside the
loop after the `digit0 < 0 || digit1 < 0` check, and the final
`return num_char / 2;`. -/
inductive HexResult where
  | oddLength : HexResult
  | invalidDigit : HexResult
  | ok : Nat → HexResult
deriving DecidableEq

/-- Embedding of `hex_string_to_binary`, with the result tagged by which of
the three `return` statements produced it; the second component is the final
contents of the caller-supplied buffer. -/
def hex_string_to_binaryE (hex_string : List Nat) (buf : Nat → Nat) :
    HexResult × (Nat → Nat) :=
  let num_char := hex_string.length
  if num_char % 2 = 1 then (.oddLength, buf)
  else
    match hexLoop hex_string 0 buf with
    | (false, buf2) => (.invalidDigit, buf2)
    | (true, buf2) => (.ok (num_char / 2), buf2)

/-- The value actually returned by the C function (a `size_t`): both failure
exits return `0`, the success exit returns `num_char / 2`. -/
def hex_string_to_binary (hex_string : List Nat) (buf : Nat → Nat) :
    Nat × (Nat → Nat) :=
  match hex_string_to_binaryE hex_string buf with
  | (.oddLength, buf2) => (0, buf2)
  | (.invalidDigit, buf2) => (0, buf2)
  | (.ok n, buf2) => (n, buf2)

/-- The condition under which the `hex_string_to_binary` loop, run on input
`s`, stores at the first out-of-bounds index `cap` of a `cap`-byte output
array.  The loop's writes go sequentially to indices 0, 1, 2, ..., so an
out-of-bounds store occurs exactly when index `cap` itself is written: the
input passed the odd-length check, pair `cap` exists (`2*cap + 1 < len`),
and every pair up to and including `cap` passed the
`digit0 < 0 || digit1 < 0` check. -/
def overrunsBuffer (s : List Nat) (cap : Nat) : Bool :=
  decide (s.length % 2 = 0) && decide (2 * cap + 1 < s.length) &&
    (List.range (cap + 1)).all (fun i =>
      !decide (hex_digit_to_int (s.getD (2 * i) 0) < 0 ∨
               hex_digit_to_int (s.getD (2 * i + 1) 0) < 0))

/-- The distinct abort sites of `create_config_network`, in source order, the
undefined-behaviour outcome of overrunning the fixed-size `mTlvs` array
during the decode, and the state in which control reaches
`otDatasetSetActiveTlvs`: the `(mLength, mTlvs)` pair handed to the external
dataset API. -/
inductive ConfigOutcome where
  | abortPollPeriod : ConfigOutcome
  | abortLinkMode : ConfigOutcome
  | abortDatasetTooLong : ConfigOutcome
  | bufferOverrun : ConfigOutcome
  | abortDecodeFailed : ConfigOutcome
  | datasetReady : Nat → (Nat → Nat) → ConfigOutcome

/-- Embedding of `create_config_network` up to the `otDatasetSetActiveTlvs`
call, parameterised over the decoder it invokes (instantiated with
`hex_string_to_binary` below).  `pollOk` / `linkModeOk` model the success of
the external `otLinkSetPollPeriod` / `otThreadSetLinkMode` calls;
`maxDatasetLength` is the external constant `OT_OPERATIONAL_DATASET_MAX_LENGTH`
(254 in OpenThread), which is both the bound of the length check and the
capacity of the `mTlvs` array; `buf0` is the arbitrary initial content of the
uninitialised stack buffer `datasetTlvs.mTlvs`; `dataset` is
`CONFIG_OPENTHREAD_NETWORK_DATASET`.  The C compares the `uint16_t`
truncation of `strlen(dataset)`, hence the `% 65536`.  A decode whose loop
would store past the end of `mTlvs` is undefined behaviour in the C
(`overrunsBuffer`, a property of the concrete `hex_string_to_binary` loop):
such executions are mapped to `bufferOverrun` and make no later observation,
whatever `decoder` abstracts the returned value. -/
def create_config_network_with
    (decoder : List Nat → (Nat → Nat) → Nat × (Nat → Nat))
    (pollOk linkModeOk : Bool) (maxDatasetLength : Nat)
    (buf0 : Nat → Nat) (dataset : List Nat) : ConfigOutcome :=
  if !pollOk then .abortPollPeriod
  else if !linkModeOk then .abortLinkMode
  else if dataset.length % 65536 > maxDatasetLength * 2 then .abortDatasetTooLong
  else if overrunsBuffer dataset maxDatasetLength then .bufferOverrun
  else
    let r := decoder dataset buf0
    if r.1 = 0 then .abortDecodeFailed
    else .datasetReady r.1 r.2

/-- `create_config_network` as written in the source: the decoder is
`hex_string_to_binary`. -/
def create_config_network (pollOk linkModeOk : Bool) (maxDatasetLength : Nat)
    (buf0 : Nat → Nat) (dataset : List Nat) : ConfigOutcome :=
  create_config_network_with hex_string_to_binary pollOk linkModeOk
    maxDatasetLength buf0 dataset

/-! Specification-side definitions (written from the spec wording, to be
compared with the embedded code). -/

/-- Spec-side: a character is a hex digit, i.e. in `[0-9A-Fa-f]`. -/
def isHexDigit (c : Nat) : Bool :=
  (48 ≤ c && c ≤ 57) || (65 ≤ c && c ≤ 70) || (97 ≤ c && c ≤ 102)

/-- Spec-side nibble function: '0'-'9' ↦ 0-9, 'A'-'F' and 'a'-'f' ↦ 10-15. -/
def nibble (c : Nat) : Nat :=
  if 48 ≤ c ∧ c ≤ 57 then c - 48
  else if 65 ≤ c ∧ c ≤ 70 then 10 + (c - 65)
  else 10 + (c - 97)

/-- Spec-side ASCII uppercasing of a character: 'a'-'z' ↦ 'A'-'Z'. -/
def upcase (c : Nat) : Nat :=
  if 97 ≤ c ∧ c ≤ 122 then c - 32 else c

/-- Spec-side value of the decoded pair number `i` of `s`:
`16 * nibble s[2i] + nibble s[2i+1]`. -/
def pairVal (s : List Nat) (i : Nat) : Nat :=
  16 * nibble (s.getD (2 * i) 0) + nibble (s.getD (2 * i + 1) 0)

/-- Spec-side: pair number `i` of `s` consists of two valid hex digits. -/
def validPair (s : List Nat) (i : Nat) : Bool :=
  isHexDigit (s.getD (2 * i) 0) && isHexDigit (s.getD (2 * i + 1) 0)

/-- Spec-side uppercase hex character for a nibble value 0..15. -/
def toHexUpper (n : Nat) : Nat :=
  if n < 10 then 48 + n else 65 + (n - 10)

/-- Spec-side uppercase hex encoder of a byte list, two characters per byte. -/
def encodeHexUpper : List Nat → List Nat
  | [] => []
  | b :: rest => toHexUpper (b / 16) :: toHexUpper (b % 16) :: encodeHexUpper rest

/-- The first `r.1` bytes of a decode result `r`, as a list. -/
def bytesOf (r : Nat × (Nat → Nat)) : List Nat :=
  (List.range r.1).map r.2

/-- The dataset hex string of the claim about
`"4f70656e5468726561642d616631360102"`, as ASCII codes. -/
def sampleDataset : List Nat :=
  ("4f70656e5468726561642d616631360102".toList.map Char.toNat)

/-- Recursion principle consuming a list two elements at a time, matching the
shape of `hexLoop`. -/
def pairRec {motive : List Nat → Sort u}
    (nil : motive []) (single : ∀ c, motive [c])
    (cons : ∀ c0 c1 rest, motive rest → motive (c0 :: c1 :: rest)) :
    ∀ s, motive s
  | [] => nil
  | [c] => single c
  | c0 :: c1 :: rest => cons c0 c1 rest (pairRec nil single cons rest)

theorem hex_digit_to_int_nonneg_iff (c : Nat) :
    0 ≤ hex_digit_to_int c ↔ isHexDigit c = true := by
  unfold hex_digit_to_int isHexDigit
  split_ifs <;> simp_all <;> omega

theorem hex_digit_to_int_eq_nibble {c : Nat} (h : isHexDigit c = true) :
    hex_digit_to_int c = (nibble c : Int) := by
  unfold hex_digit_to_int nibble
  unfold isHexDigit at h
  simp only [Bool.or_eq_true, Bool.and_eq_true, decide_eq_true_eq] at h
  split_ifs <;> push_cast <;> omega

theorem nibble_le {c : Nat} (h : isHexDigit c = true) : nibble c ≤ 15 := by
  unfold nibble
  unfold isHexDigit at h
  simp only [Bool.or_eq_true, Bool.and_eq_true, decide_eq_true_eq] at h
  split_ifs <;> omega

theorem getD_cons_cons (c0 c1 : Nat) (rest : List Nat) (n : Nat) :
    (c0 :: c1 :: rest).getD (n + 2) 0 = rest.getD n 0 := rfl

theorem pairVal_zero (c0 c1 : Nat) (rest : List Nat) :
    pairVal (c0 :: c1 :: rest) 0 = 16 * nibble c0 + nibble c1 := rfl

theorem validPair_zero (c0 c1 : Nat) (rest : List Nat) :
    validPair (c0 :: c1 :: rest) 0 = (isHexDigit c0 && isHexDigit c1) := rfl

theorem pairVal_cons (c0 c1 : Nat) (rest : List Nat) (i : Nat) :
    pairVal (c0 :: c1 :: rest) (i + 1) = pairVal rest i := by
  unfold pairVal
  have h2 : 2 * (i + 1) + 1 = 2 * i + 1 + 2 := by ring
  have h1 : 2 * (i + 1) = 2 * i + 2 := by ring
  rw [h2, h1, getD_cons_cons, getD_cons_cons]

theorem validPair_cons (c0 c1 : Nat) (rest : List Nat) (i : Nat) :
    validPair (c0 :: c1 :: rest) (i + 1) = validPair rest i := by
  unfold validPair
  have h2 : 2 * (i + 1) + 1 = 2 * i + 1 + 2 := by ring
  have h1 : 2 * (i + 1) = 2 * i + 2 := by ring
  rw [h2, h1, getD_cons_cons, getD_cons_cons]

/-- The loop never writes below index `j` nor at or above `j + len/2`. -/
theorem hexLoop_frame (s : List Nat) :
    ∀ j buf k, (k < j ∨ j + s.length / 2 ≤ k) → (hexLoop s j buf).2 k = buf k := by
  induction s using pairRec with
  | nil => intro j buf k _; rfl
  | single c => intro j buf k _; rfl
  | cons c0 c1 rest ih =>
    intro j buf k hk
    simp only [List.length_cons] at hk
    simp only [hexLoop]
    split
    · rfl
    · rw [ih (j + 1) _ k (by omega)]
      exact Function.update_noteq (by omega) _ _

/-- If the loop returns `true`, every character it saw is a hex digit. -/
theorem hexLoop_true_all_valid (s : List Nat) :
    ∀ j buf, (hexLoop s j buf).1 = true → ∀ c ∈ s, isHexDigit c = true := by
  induction s using pairRec with
  | nil => intro j buf _ c hc; cases hc
  | single c => intro j buf h; cases h
  | cons c0 c1 rest ih =>
    intro j buf h c hc
    simp only [hexLoop] at h
    split at h
    · cases h
    · rename_i hvalid
      push_neg at hvalid
      rcases List.mem_cons.1 hc with rfl | hc2
      · exact (hex_digit_to_int_nonneg_iff c).1 hvalid.1
      · rcases List.mem_cons.1 hc2 with rfl | hc3
        · exact (hex_digit_to_int_nonneg_iff c).1 hvalid.2
        · exact ih (j + 1) _ h c hc3

/-- If every character is a hex digit, the loop returns `true`. -/
theorem hexLoop_all_valid_true (s : List Nat) :
    ∀ j buf, (∀ c ∈ s, isHexDigit c = true) → s.length % 2 = 0 →
    (hexLoop s j buf).1 = true := by
  induction s using pairRec with
  | nil => intro j buf _ _; rfl
  | single c => intro j buf _ he; simp at he
  | cons c0 c1 rest ih =>
    intro j buf hv he
    simp only [List.length_cons] at he
    simp only [hexLoop]
    have h0 : 0 ≤ hex_digit_to_int c0 :=
      (hex_digit_to_int_nonneg_iff c0).2 (hv c0 (by simp))
    have h1 : 0 ≤ hex_digit_to_int c1 :=
      (hex_digit_to_int_nonneg_iff c1).2 (hv c1 (by simp))
    rw [if_neg (by omega)]
    exact ih (j + 1) _ (fun c hc => hv c (by simp [hc])) (by omega)

/-- If the loop returns `true`, the byte written at `j + i` is the decoded
value of pair `i`. -/
theorem hexLoop_true_bytes (s : List Nat) :
    ∀ j buf, (hexLoop s j buf).1 = true →
    ∀ i, 2 * i + 1 < s.length → (hexLoop s j buf).2 (j + i) = pairVal s i := by
  induction s using pairRec with
  | nil => intro j buf _ i hi; simp at hi
  | single c => intro j buf h; cases h
  | cons c0 c1 rest ih =>
    intro j buf h i hi
    simp only [List.length_cons] at hi
    simp only [hexLoop] at h ⊢
    split at h
    · cases h
    · rename_i hvalid
      push_neg at hvalid
      rw [if_neg (by omega)]
      have hc0 : isHexDigit c0 = true := (hex_digit_to_int_nonneg_iff c0).1 hvalid.1
      have hc1 : isHexDigit c1 = true := (hex_digit_to_int_nonneg_iff c1).1 hvalid.2
      cases i with
      | zero =>
        rw [hexLoop_frame rest (j + 1) _ (j + 0) (Or.inl (by omega))]
        simp only [Nat.add_zero, Function.update_same]
        rw [hex_digit_to_int_eq_nibble hc0, hex_digit_to_int_eq_nibble hc1,
          pairVal_zero]
        have hb0 := nibble_le hc0
        have hb1 := nibble_le hc1
        have hcast : ((nibble c0 : Int) * 16 + (nibble c1 : Int)).toNat
            = nibble c0 * 16 + nibble c1 := by omega
        rw [hcast, Nat.mod_eq_of_lt (by omega)]
        ring
      | succ i2 =>
        have hj : j + (i2 + 1) = (j + 1) + i2 := by omega
        rw [hj, ih (j + 1) _ h i2 (by omega), pairVal_cons]

/-- Behaviour of the loop when the first invalid pair is pair `k`: the flag is
`false`, pairs before `k` were decoded into the buffer, and every cell at
index `j + k` or beyond (and below `j`) is untouched. -/
theorem hexLoop_firstInvalid (s : List Nat) :
    ∀ j buf k, (∀ i < k, validPair s i = true) → 2 * k + 1 < s.length →
    validPair s k = false →
    (hexLoop s j buf).1 = false ∧
    (∀ i < k, (hexLoop s j buf).2 (j + i) = pairVal s i) ∧
    (∀ m, j + k ≤ m → (hexLoop s j buf).2 m = buf m) := by
  induction s using pairRec with
  | nil => intro j buf k _ hk _; simp at hk
  | single c =>
    intro j buf k hv hk hbad
    simp only [List.length_singleton] at hk
    omega
  | cons c0 c1 rest ih =>
    intro j buf k hv hk hbad
    simp only [List.length_cons] at hk
    cases k with
    | zero =>
      rw [validPair_zero] at hbad
      have hfire : hex_digit_to_int c0 < 0 ∨ hex_digit_to_int c1 < 0 := by
        by_contra hcontra
        push_neg at hcontra
        rw [(hex_digit_to_int_nonneg_iff c0).1 hcontra.1,
          (hex_digit_to_int_nonneg_iff c1).1 hcontra.2] at hbad
        cases hbad
      simp only [hexLoop, if_pos hfire]
      exact ⟨by simp, fun i hi => absurd hi (by omega), fun m _ => by simp⟩
    | succ k2 =>
      have hp0 : (isHexDigit c0 && isHexDigit c1) = true := by
        rw [← validPair_zero c0 c1 rest]; exact hv 0 (by omega)
      rw [Bool.and_eq_true] at hp0
      have h0 : 0 ≤ hex_digit_to_int c0 := (hex_digit_to_int_nonneg_iff c0).2 hp0.1
      have h1 : 0 ≤ hex_digit_to_int c1 := (hex_digit_to_int_nonneg_iff c1).2 hp0.2
      have hrec := ih (j + 1)
        (Function.update buf j
          ((hex_digit_to_int c0 * 16 + hex_digit_to_int c1).toNat % 256)) k2
        (fun i hi => by rw [← validPair_cons c0 c1 rest i]; exact hv (i + 1) (by omega))
        (by omega)
        (by rw [← validPair_cons c0 c1 rest k2]; exact hbad)
      simp only [hexLoop,
        if_neg (by omega : ¬ (hex_digit_to_int c0 < 0 ∨ hex_digit_to_int c1 < 0))]
      refine ⟨hrec.1, ?_, ?_⟩
      · intro i hi
        cases i with
        | zero =>
          rw [hexLoop_frame rest (j + 1) _ (j + 0) (Or.inl (by omega))]
          simp only [Nat.add_zero, Function.update_same]
          rw [hex_digit_to_int_eq_nibble hp0.1, hex_digit_to_int_eq_nibble hp0.2,
            pairVal_zero]
          have hb0 := nibble_le hp0.1
          have hb1 := nibble_le hp0.2
          have hcast : ((nibble c0 : Int) * 16 + (nibble c1 : Int)).toNat
              = nibble c0 * 16 + nibble c1 := by omega
          rw [hcast, Nat.mod_eq_of_lt (by omega)]
          ring
        | succ i2 =>
          have hj : j + (i2 + 1) = (j + 1) + i2 := by omega
          rw [hj, hrec.2.1 i2 (by omega), pairVal_cons]
      · intro m hm
        rw [hrec.2.2 m (by omega)]
        exact Function.update_noteq (by omega) _ _

/-- Odd length: the first `return 0;` fires. -/
theorem binaryE_odd (s : List Nat) (buf : Nat → Nat) (ho : s.length % 2 = 1) :
    hex_string_to_binaryE s buf = (.oddLength, buf) := by
  unfold hex_string_to_binaryE
  rw [if_pos ho]

/-- Even length, loop succeeded: the final `return num_char / 2;` fires. -/
theorem binaryE_ok (s : List Nat) (buf : Nat → Nat) (he : s.length % 2 = 0)
    (hflag : (hexLoop s 0 buf).1 = true) :
    hex_string_to_binaryE s buf = (.ok (s.length / 2), (hexLoop s 0 buf).2) := by
  unfold hex_string_to_binaryE
  rw [if_neg (by omega)]
  rcases hres : hexLoop s 0 buf with ⟨b, buf2⟩
  rw [hres] at hflag
  simp only at hflag
  subst hflag
  rfl

/-- Even length, loop failed: the `return 0;` inside the loop fires. -/
theorem binaryE_invalid (s : List Nat) (buf : Nat → Nat) (he : s.length % 2 = 0)
    (hflag : (hexLoop s 0 buf).1 = false) :
    hex_string_to_binaryE s buf = (.invalidDigit, (hexLoop s 0 buf).2) := by
  unfold hex_string_to_binaryE
  rw [if_neg (by omega)]
  rcases hres : hexLoop s 0 buf with ⟨b, buf2⟩
  rw [hres] at hflag
  simp only at hflag
  subst hflag
  rfl

theorem binary_odd (s : List Nat) (buf : Nat → Nat) (ho : s.length % 2 = 1) :
    hex_string_to_binary s buf = (0, buf) := by
  unfold hex_string_to_binary
  rw [binaryE_odd s buf ho]

theorem binary_ok (s : List Nat) (buf : Nat → Nat) (he : s.length % 2 = 0)
    (hflag : (hexLoop s 0 buf).1 = true) :
    hex_string_to_binary s buf = (s.length / 2, (hexLoop s 0 buf).2) := by
  unfold hex_string_to_binary
  rw [binaryE_ok s buf he hflag]

theorem binary_invalid (s : List Nat) (buf : Nat → Nat) (he : s.length % 2 = 0)
    (hflag : (hexLoop s 0 buf).1 = false) :
    hex_string_to_binary s buf = (0, (hexLoop s 0 buf).2) := by
  unfold hex_string_to_binary
  rw [binaryE_invalid s buf he hflag]

/-- On any input the final buffer is the buffer left by the loop (which for
odd inputs is the untouched input buffer). -/
theorem binary_snd (s : List Nat) (buf : Nat → Nat) :
    (hex_string_to_binary s buf).2 = if s.length % 2 = 1 then buf
      else (hexLoop s 0 buf).2 := by
  rcases Nat.mod_two_eq_zero_or_one s.length with he | ho
  · rw [if_neg (by omega)]
    cases hflag : (hexLoop s 0 buf).1 with
    | false => rw [binary_invalid s buf he hflag]
    | true => rw [binary_ok s buf he hflag]
  · rw [if_pos ho, binary_odd s buf ho]

/-- Uppercasing a character does not change its hex digit value (lowercase
letters map to the equal-valued uppercase letter; everything else, valid or
not, is unchanged or stays invalid). -/
theorem hex_digit_to_int_upcase (c : Nat) :
    hex_digit_to_int (upcase c) = hex_digit_to_int c := by
  unfold upcase hex_digit_to_int
  split_ifs <;> push_cast <;> omega

/-- The decoding loop is unchanged by uppercasing the input. -/
theorem hexLoop_map_upcase (s : List Nat) :
    ∀ j buf, hexLoop (s.map upcase) j buf = hexLoop s j buf := by
  induction s using pairRec with
  | nil => intro j buf; rfl
  | single c => intro j buf; rfl
  | cons c0 c1 rest ih =>
    intro j buf
    simp only [List.map_cons, hexLoop, hex_digit_to_int_upcase, ih]

theorem binaryE_map_upcase (s : List Nat) (buf : Nat → Nat) :
    hex_string_to_binaryE (s.map upcase) buf = hex_string_to_binaryE s buf := by
  unfold hex_string_to_binaryE
  rw [List.length_map, hexLoop_map_upcase]

theorem toHexUpper_nibble {c : Nat} (h : isHexDigit c = true) :
    toHexUpper (nibble c) = upcase c := by
  unfold isHexDigit at h
  simp only [Bool.or_eq_true, Bool.and_eq_true, decide_eq_true_eq] at h
  unfold toHexUpper nibble upcase
  split_ifs <;> omega

/-- Re-encoding the sequence of decoded pair values of a valid even-length
hex string reproduces its uppercase form. -/
theorem encode_pairVal (s : List Nat) :
    s.length % 2 = 0 → (∀ c ∈ s, isHexDigit c = true) →
    encodeHexUpper ((List.range (s.length / 2)).map (pairVal s)) = s.map upcase := by
  induction s using pairRec with
  | nil => intro _ _; rfl
  | single c => intro he _; simp at he
  | cons c0 c1 rest ih =>
    intro he hv
    simp only [List.length_cons] at he
    have hc0 : isHexDigit c0 = true := hv c0 (by simp)
    have hc1 : isHexDigit c1 = true := hv c1 (by simp)
    have hlen : (c0 :: c1 :: rest).length / 2 = rest.length / 2 + 1 := by
      simp only [List.length_cons]; omega
    rw [hlen, List.range_succ_eq_map, List.map_cons, List.map_map]
    have hmap : (List.range (rest.length / 2)).map (pairVal (c0 :: c1 :: rest) ∘ Nat.succ)
        = (List.range (rest.length / 2)).map (pairVal rest) := by
      refine List.map_congr_left fun i _ => ?_
      exact pairVal_cons c0 c1 rest i
    rw [hmap, pairVal_zero]
    have hb0 := nibble_le hc0
    have hb1 := nibble_le hc1
    have hdiv : (16 * nibble c0 + nibble c1) / 16 = nibble c0 := by omega
    have hmod : (16 * nibble c0 + nibble c1) % 16 = nibble c1 := by omega
    simp only [encodeHexUpper, hdiv, hmod, toHexUpper_nibble hc0, toHexUpper_nibble hc1,
      List.map_cons]
    rw [ih (by omega) (fun c hc => hv c (by simp [hc]))]

/-- C1: for every even-length input composed only of hex digits,
`hex_string_to_binary` succeeds returning `len/2`, and the output byte at
each pair index `j` is `16 * nibble(input[2j]) + nibble(input[2j+1])`. -/
theorem C1_decode_correct (s : List Nat) (buf : Nat → Nat)
    (he : s.length % 2 = 0) (hv : ∀ c ∈ s, isHexDigit c = true) :
    (hex_string_to_binary s buf).1 = s.length / 2 ∧
    ∀ j, 2 * j + 1 < s.length →
      (hex_string_to_binary s buf).2 j =
        16 * nibble (s.getD (2 * j) 0) + nibble (s.getD (2 * j + 1) 0) := by
  have hflag := hexLoop_all_valid_true s 0 buf hv he
  rw [binary_ok s buf he hflag]
  refine ⟨rfl, fun j hj => ?_⟩
  have hb := hexLoop_true_bytes s 0 buf hflag j hj
  rw [Nat.zero_add] at hb
  exact hb

/-- C1 witness: the two-character string "aB" decodes to one byte 0xAB. -/
theorem C1_witness :
    (hex_string_to_binary [97, 66] (fun _ => 0)).1 = 1 ∧
    ∀ j, 2 * j + 1 < 2 →
      (hex_string_to_binary [97, 66] (fun _ => 0)).2 j =
        16 * nibble ([97, 66].getD (2 * j) 0) + nibble ([97, 66].getD (2 * j + 1) 0) :=
  C1_decode_correct [97, 66] (fun _ => 0) (by decide) (by decide)

/-- C2: every odd-length input fails through the `OddLength` exit, with the
returned count `0` and the output buffer entirely unchanged. -/
theorem C2_odd_rejected (s : List Nat) (buf : Nat → Nat)
    (ho : s.length % 2 = 1) :
    hex_string_to_binaryE s buf = (.oddLength, buf) ∧
    hex_string_to_binary s buf = (0, buf) := by
  exact ⟨binaryE_odd s buf ho, binary_odd s buf ho⟩

/-- C2 witness: the single character "A" and a 161-character string are both
rejected as odd with the buffer untouched. -/
theorem C2_witness :
    (hex_string_to_binaryE [65] (fun _ => 0) = (.oddLength, fun _ => 0) ∧
      hex_string_to_binary [65] (fun _ => 0) = (0, fun _ => 0)) ∧
    hex_string_to_binary (List.replicate 161 48) (fun _ => 0) = (0, fun _ => 0) :=
  ⟨C2_odd_rejected [65] (fun _ => 0) (by decide),
   (C2_odd_rejected (List.replicate 161 48) (fun _ => 0) (by simp)).2⟩

/-- C3: every even-length input containing a character outside `[0-9A-Fa-f]`
fails through the `InvalidDigit` exit, returning `0` rather than a positive
byte count. -/
theorem C3_invalid_rejected (s : List Nat) (buf : Nat → Nat)
    (he : s.length % 2 = 0) (hc : ∃ c ∈ s, isHexDigit c = false) :
    (hex_string_to_binaryE s buf).1 = .invalidDigit ∧
    (hex_string_to_binary s buf).1 = 0 := by
  have hflag : (hexLoop s 0 buf).1 = false := by
    cases hfl : (hexLoop s 0 buf).1 with
    | false => rfl
    | true =>
      obtain ⟨c, hmem, hbad⟩ := hc
      rw [hexLoop_true_all_valid s 0 buf hfl c hmem] at hbad
      cases hbad
  rw [binaryE_invalid s buf he hflag, binary_invalid s buf he hflag]
  exact ⟨rfl, rfl⟩

/-- C3 witness: the even-length string "ZZ" is rejected as invalid. -/
theorem C3_witness :
    (hex_string_to_binaryE [90, 90] (fun _ => 0)).1 = .invalidDigit ∧
    (hex_string_to_binary [90, 90] (fun _ => 0)).1 = 0 :=
  C3_invalid_rejected [90, 90] (fun _ => 0) (by decide) ⟨90, by decide, by decide⟩

/-- With the two external calls succeeding, `create_config_network_with`
reduces to the truncated length check, the overrun check, and the decode
with its zero check. -/
theorem create_config_reduce (decoder : List Nat → (Nat → Nat) → Nat × (Nat → Nat))
    (maxLen : Nat) (buf0 : Nat → Nat) (s : List Nat) :
    create_config_network_with decoder true true maxLen buf0 s =
      if s.length % 65536 > maxLen * 2 then .abortDatasetTooLong
      else if overrunsBuffer s maxLen then .bufferOverrun
      else if (decoder s buf0).1 = 0 then .abortDecodeFailed
      else .datasetReady (decoder s buf0).1 (decoder s buf0).2 := rfl

theorem create_config_pollFail (decoder : List Nat → (Nat → Nat) → Nat × (Nat → Nat))
    (lm : Bool) (maxLen : Nat) (buf0 : Nat → Nat) (s : List Nat) :
    create_config_network_with decoder false lm maxLen buf0 s = .abortPollPeriod := rfl

theorem create_config_linkFail (decoder : List Nat → (Nat → Nat) → Nat × (Nat → Nat))
    (maxLen : Nat) (buf0 : Nat → Nat) (s : List Nat) :
    create_config_network_with decoder true false maxLen buf0 s = .abortLinkMode := rfl

/-- A fully valid even-length input long enough to fill pair `cap` makes the
decode loop store at index `cap`. -/
theorem overrunsBuffer_of_valid (s : List Nat) (cap : Nat)
    (he : s.length % 2 = 0) (hv : ∀ c ∈ s, isHexDigit c = true)
    (hl : 2 * cap + 1 < s.length) : overrunsBuffer s cap = true := by
  unfold overrunsBuffer
  simp only [Bool.and_eq_true, decide_eq_true_eq, List.all_eq_true,
    List.mem_range, Bool.not_eq_true', decide_eq_false_iff_not]
  refine ⟨⟨he, hl⟩, fun i hi => ?_⟩
  push_neg
  constructor
  · rw [hex_digit_to_int_nonneg_iff]
    refine hv _ ?_
    rw [List.getD_eq_getElem s 0 (by omega)]
    exact List.getElem_mem _
  · rw [hex_digit_to_int_nonneg_iff]
    refine hv _ ?_
    rw [List.getD_eq_getElem s 0 (by omega)]
    exact List.getElem_mem _

/-- C4: whenever `create_config_network` reaches `otDatasetSetActiveTlvs`
(outcome `datasetReady`), the handed-over pair satisfies
`1 ≤ length ≤ maxDatasetLength` and the first `length` bytes of the buffer
are the decoded form of the configured hex string. -/
theorem C4_dataset_contract (pollOk linkModeOk : Bool) (maxLen : Nat)
    (buf0 : Nat → Nat) (s : List Nat) (len : Nat) (tlvs : Nat → Nat)
    (h : create_config_network pollOk linkModeOk maxLen buf0 s
      = .datasetReady len tlvs) :
    1 ≤ len ∧ len ≤ maxLen ∧
    ∀ j, j < len → tlvs j =
      16 * nibble (s.getD (2 * j) 0) + nibble (s.getD (2 * j + 1) 0) := by
  unfold create_config_network at h
  cases pollOk with
  | false => rw [create_config_pollFail] at h; cases h
  | true =>
  cases linkModeOk with
  | false => rw [create_config_linkFail] at h; cases h
  | true =>
  rw [create_config_reduce] at h
  by_cases hlen : s.length % 65536 > maxLen * 2
  · rw [if_pos hlen] at h; cases h
  · rw [if_neg hlen] at h
    by_cases hov : overrunsBuffer s maxLen = true
    · rw [if_pos hov] at h; cases h
    · rw [if_neg hov] at h
      rcases Nat.mod_two_eq_zero_or_one s.length with he | ho
      · cases hflag : (hexLoop s 0 buf0).1 with
        | false =>
          rw [binary_invalid s buf0 he hflag] at h
          simp at h
        | true =>
          rw [binary_ok s buf0 he hflag] at h
          by_cases hz : s.length / 2 = 0
          · rw [if_pos (by simpa using hz)] at h; cases h
          · rw [if_neg (by simpa using hz)] at h
            injection h with h1 h2
            subst h1
            subst h2
            have hmax : s.length / 2 ≤ maxLen := by
              by_contra hgt
              push_neg at hgt
              exact hov (overrunsBuffer_of_valid s maxLen he
                (hexLoop_true_all_valid s 0 buf0 hflag) (by omega))
            refine ⟨by omega, hmax, fun j hj => ?_⟩
            have hb := hexLoop_true_bytes s 0 buf0 hflag j (by omega)
            rw [Nat.zero_add] at hb
            exact hb
      · rw [binary_odd s buf0 ho] at h
        simp at h

/-- C4 witness: decoding "ab" hands over length 1 with byte 0xAB. -/
theorem C4_witness :
    1 ≤ 1 ∧ 1 ≤ 254 ∧
    ∀ j, j < 1 → Function.update (fun _ => 0) 0 171 j =
      16 * nibble ([97, 98].getD (2 * j) 0) + nibble ([97, 98].getD (2 * j + 1) 0) :=
  C4_dataset_contract true true 254 (fun _ => 0) [97, 98] 1
    (Function.update (fun _ => 0) 0 171) (by rfl)

/-- C5 counterexample: a 65537-character all-zeros string exceeds
`2 × maxDatasetLength` (= 508), yet the `uint16_t` truncation of `strlen`
makes `dataset_str_len = 1`, the length check passes, the decoder is invoked
(odd length, so it returns 0 having written nothing — fully defined
behaviour), and the builder aborts with the decode failure instead of
`DatasetTooLong`. -/
theorem C5_counterexample :
    (List.replicate 65537 48).length > 254 * 2 ∧
    create_config_network_with hex_string_to_binary true true 254 (fun _ => 0)
      (List.replicate 65537 48) = .abortDecodeFailed ∧
    create_config_network_with hex_string_to_binary true true 254 (fun _ => 0)
      (List.replicate 65537 48) ≠ .abortDatasetTooLong := by
  have hlen : (List.replicate 65537 48).length = 65537 := by
    rw [List.length_replicate]
  have hov : overrunsBuffer (List.replicate 65537 48) 254 = false := by
    unfold overrunsBuffer
    rw [hlen]
    have hodd : decide ((65537 : Nat) % 2 = 0) = false := by decide
    rw [hodd]
    simp only [Bool.false_and]
  have hmain : create_config_network_with hex_string_to_binary true true 254
      (fun _ => 0) (List.replicate 65537 48) = .abortDecodeFailed := by
    rw [create_config_reduce, if_neg (by rw [hlen]; decide),
      if_neg (by rw [hov]; simp),
      binary_odd _ _ (by rw [hlen])]
    rfl
  refine ⟨by rw [hlen]; decide, hmain, ?_⟩
  rw [hmain]
  intro hcon
  cases hcon

/-- C5 amended: any string of fewer than 65536 characters that is longer
than `2 × maxDatasetLength` fails with `DatasetTooLong` whatever decoder is
plugged in (so before the hex decoder is ever invoked), and a string of
exactly `2 × maxDatasetLength` characters passes this length check; longer
strings can slip past the check through the `uint16_t` length truncation. -/
theorem C5_too_long_guard
    (decoder : List Nat → (Nat → Nat) → Nat × (Nat → Nat))
    (maxLen : Nat) (buf0 : Nat → Nat) (s : List Nat) :
    (s.length < 65536 → s.length > maxLen * 2 →
      create_config_network_with decoder true true maxLen buf0 s
        = .abortDatasetTooLong) ∧
    (s.length = maxLen * 2 →
      create_config_network_with decoder true true maxLen buf0 s
        ≠ .abortDatasetTooLong) := by
  rw [create_config_reduce]
  constructor
  · intro hb hgt
    rw [if_pos (by rw [Nat.mod_eq_of_lt hb]; exact hgt)]
  · intro heq
    have hmod := Nat.mod_le s.length 65536
    rw [if_neg (by omega)]
    split
    · intro hcon; cases hcon
    · split
      · intro hcon; cases hcon
      · intro hcon; cases hcon

/-- C5 witness: with `maxDatasetLength = 2`, a 6-character (= 2·2+2) string is
rejected as too long and a 4-character string passes the length check. -/
theorem C5_witness :
    create_config_network_with hex_string_to_binary true true 2 (fun _ => 0)
      (List.replicate 6 48) = .abortDatasetTooLong ∧
    create_config_network_with hex_string_to_binary true true 2 (fun _ => 0)
      (List.replicate 4 48) ≠ .abortDatasetTooLong :=
  ⟨(C5_too_long_guard hex_string_to_binary 2 (fun _ => 0)
      (List.replicate 6 48)).1 (by decide) (by decide),
   (C5_too_long_guard hex_string_to_binary 2 (fun _ => 0)
      (List.replicate 4 48)).2 (by decide)⟩

/-- C6: decoding is unchanged by uppercasing the input, and for valid
even-length input re-encoding the decoded bytes to uppercase hex reproduces
the uppercased input. -/
theorem C6_case_round_trip (s : List Nat) (buf : Nat → Nat) :
    hex_string_to_binary (s.map upcase) buf = hex_string_to_binary s buf ∧
    (s.length % 2 = 0 → (∀ c ∈ s, isHexDigit c = true) →
      encodeHexUpper (bytesOf (hex_string_to_binary s buf)) = s.map upcase) := by
  constructor
  · unfold hex_string_to_binary
    rw [binaryE_map_upcase]
  · intro he hv
    have hflag := hexLoop_all_valid_true s 0 buf hv he
    rw [binary_ok s buf he hflag]
    show encodeHexUpper ((List.range (s.length / 2)).map (hexLoop s 0 buf).2)
      = s.map upcase
    have hmap : (List.range (s.length / 2)).map (hexLoop s 0 buf).2
        = (List.range (s.length / 2)).map (pairVal s) := by
      refine List.map_congr_left fun i hi => ?_
      rw [List.mem_range] at hi
      have hb := hexLoop_true_bytes s 0 buf hflag i (by omega)
      rw [Nat.zero_add] at hb
      exact hb
    rw [hmap, encode_pairVal s he hv]

/-- C6 witness: "ab" and its uppercasing "AB" decode identically to the byte
0xAB, which re-encodes to "AB". -/
theorem C6_witness :
    hex_string_to_binary ([97, 98].map upcase) (fun _ => 0)
      = hex_string_to_binary [97, 98] (fun _ => 0) ∧
    encodeHexUpper (bytesOf (hex_string_to_binary [97, 98] (fun _ => 0)))
      = [97, 98].map upcase :=
  ⟨(C6_case_round_trip [97, 98] (fun _ => 0)).1,
   (C6_case_round_trip [97, 98] (fun _ => 0)).2 (by decide) (by decide)⟩

/-- C7 counterexample: there is no pair of distinct return values separating
the two failure causes, because the odd-length input "A" and the even-length
invalid input "ZZ" both make `hex_string_to_binary` return 0. -/
theorem C7_counterexample :
    ¬ ∃ a b : Nat, a ≠ b ∧
      (∀ (s : List Nat) (buf : Nat → Nat), s.length % 2 = 1 →
        (hex_string_to_binary s buf).1 = a) ∧
      (∀ (s : List Nat) (buf : Nat → Nat), s.length % 2 = 0 →
        (∃ c ∈ s, isHexDigit c = false) → (hex_string_to_binary s buf).1 = b) := by
  rintro ⟨a, b, hab, ho, hi⟩
  have ha : (hex_string_to_binary [65] (fun _ => 0)).1 = a :=
    ho [65] (fun _ => 0) (by decide)
  have hb : (hex_string_to_binary [90, 90] (fun _ => 0)).1 = b :=
    hi [90, 90] (fun _ => 0) (by decide) ⟨90, by decide, by decide⟩
  have ha0 : (hex_string_to_binary [65] (fun _ => 0)).1 = 0 := by decide
  have hb0 : (hex_string_to_binary [90, 90] (fun _ => 0)).1 = 0 := by decide
  exact hab (by omega)

/-- C7 amended: both failure causes yield the same returned value 0, so the
caller cannot tell from the returned value alone which failure occurred (only
the tagged exit point distinguishes them). -/
theorem C7_same_indicator (s : List Nat) (buf : Nat → Nat) :
    (s.length % 2 = 1 → (hex_string_to_binary s buf).1 = 0) ∧
    (s.length % 2 = 0 → (∃ c ∈ s, isHexDigit c = false) →
      (hex_string_to_binary s buf).1 = 0) := by
  constructor
  · intro ho
    rw [binary_odd s buf ho]
  · intro he hc
    have hflag : (hexLoop s 0 buf).1 = false := by
      cases hfl : (hexLoop s 0 buf).1 with
      | false => rfl
      | true =>
        obtain ⟨c, hmem, hbad⟩ := hc
        rw [hexLoop_true_all_valid s 0 buf hfl c hmem] at hbad
        cases hbad
    rw [binary_invalid s buf he hflag]

/-- C7 witness for the amended claim: both "A" (odd) and "ZZ" (invalid)
return 0. -/
theorem C7_witness :
    (hex_string_to_binary [65] (fun _ => 0)).1 = 0 ∧
    (hex_string_to_binary [90, 90] (fun _ => 0)).1 = 0 :=
  ⟨(C7_same_indicator [65] (fun _ => 0)).1 (by decide),
   (C7_same_indicator [90, 90] (fun _ => 0)).2 (by decide) ⟨90, by decide, by decide⟩⟩

/-- C8 counterexample: `"4f70656e5468726561642d616631360102"` is 34
characters, so the returned byte count is 17, not the claimed 18. -/
theorem C8_counterexample :
    (hex_string_to_binary sampleDataset (fun _ => 0)).1 ≠ 18 := by decide

/-- C8 amended: that input decodes successfully to the 17-byte sequence
4F 70 65 6E 54 68 72 65 61 64 2D 61 66 31 36 01 02 with returned count 17. -/
theorem C8_decode_sample :
    (hex_string_to_binary sampleDataset (fun _ => 0)).1 = 17 ∧
    bytesOf (hex_string_to_binary sampleDataset (fun _ => 0)) =
      [79, 112, 101, 110, 84, 104, 114, 101, 97, 100, 45, 97, 102, 49, 54, 1, 2] := by
  constructor
  · decide
  · decide

/-- C9: the empty string succeeds through the final `return num_char / 2;`
(neither the odd-length nor the invalid-digit exit), returning count 0 with
the buffer untouched, while `create_config_network` treats that zero count as
a decode failure and aborts. -/
theorem C9_empty_two_policies (buf buf0 : Nat → Nat) (maxLen : Nat) :
    hex_string_to_binaryE ([] : List Nat) buf = (.ok 0, buf) ∧
    hex_string_to_binary ([] : List Nat) buf = (0, buf) ∧
    create_config_network true true maxLen buf0 ([] : List Nat)
      = .abortDecodeFailed := by
  refine ⟨rfl, rfl, ?_⟩
  unfold create_config_network
  rw [create_config_reduce, if_neg (by simp)]
  rfl

/-- C10: when decoding fails on an even-length input whose first invalid
character lies in pair `k`, bytes 0..k-1 hold the decoded preceding pairs,
every byte from index `k` on keeps its pre-call contents, and (on any input
whatsoever) no byte at index ≥ len/2 is ever written. -/
theorem C10_partial_write_frame (s : List Nat) (buf : Nat → Nat) (k : Nat)
    (he : s.length % 2 = 0) (hv : ∀ i < k, validPair s i = true)
    (hk : 2 * k + 1 < s.length) (hbad : validPair s k = false) :
    ((hex_string_to_binary s buf).1 = 0 ∧
     (∀ i, i < k → (hex_string_to_binary s buf).2 i = pairVal s i) ∧
     (∀ m, k ≤ m → (hex_string_to_binary s buf).2 m = buf m)) ∧
    ∀ (t : List Nat) (b2 : Nat → Nat) (m : Nat), t.length / 2 ≤ m →
      (hex_string_to_binary t b2).2 m = b2 m := by
  have hfi := hexLoop_firstInvalid s 0 buf k hv hk hbad
  constructor
  · rw [binary_invalid s buf he hfi.1]
    refine ⟨rfl, fun i hi => ?_, fun m hm => ?_⟩
    · have hb := hfi.2.1 i hi
      rw [Nat.zero_add] at hb
      exact hb
    · exact hfi.2.2 m (by omega)
  · intro t b2 m hm
    rw [binary_snd]
    split
    · rfl
    · exact hexLoop_frame t 0 b2 m (Or.inr (by omega))

/-- C10 witness: on "66ZZ66" (first invalid pair is pair 1) with the buffer
initially all 7, byte 0 is the decoded 0x66, bytes from index 1 on still
hold 7, and the universal frame property holds. -/
theorem C10_witness :
    (((hex_string_to_binary [54, 54, 90, 90, 54, 54] (fun _ => 7)).1 = 0 ∧
      (∀ i, i < 1 → (hex_string_to_binary [54, 54, 90, 90, 54, 54] (fun _ => 7)).2 i
        = pairVal [54, 54, 90, 90, 54, 54] i) ∧
      (∀ m, 1 ≤ m → (hex_string_to_binary [54, 54, 90, 90, 54, 54] (fun _ => 7)).2 m
        = 7)) ∧
     ∀ (t : List Nat) (b2 : Nat → Nat) (m : Nat), t.length / 2 ≤ m →
      (hex_string_to_binary t b2).2 m = b2 m) :=
  C10_partial_write_frame [54, 54, 90, 90, 54, 54] (fun _ => 7) 1
    (by decide) (by decide) (by decide) (by decide)
